import Mathlib

/-!
Verification of the parallel analysis engine of react-issue-finder.

The definitions below are a shallow embedding of the TypeScript sources:

* src/types.ts                      — data model (IssueType, Issue, AnalysisResult, ProjectAnalysis)
* src/core/analysisEngine.ts        — AnalysisEngine: option clamping, createBatches,
                                      analyzeProject aggregation, worker pool and job
                                      lifecycle (message / timeout / error handlers),
                                      loadConfiguration
* the worker script (analysisWorker) — per-file analyzeFile wrapper with per-analyzer
                                      error isolation

Worker threads, timers and promise settlement are modelled as an explicit event-step
relation on an engine state; file contents, real time and the five concrete analyzers
are abstracted behind oracles, since the claims under study are about the engine's
dispatch, aggregation and failure-handling logic, not the detection heuristics.
-/

namespace ReactIssueFinder

/-- Issue categories, from the IssueType enum in src/types.ts. -/
inductive IssueType where
  | TYPE_ERROR
  | JS_TO_TS
  | REFACTORING
  | SECURITY
  | PERFORMANCE
deriving DecidableEq, Repr

/-- Severities, from the IssueSeverity enum in src/types.ts. -/
inductive IssueSeverity where
  | ERROR
  | WARNING
  | INFO
deriving DecidableEq, Repr

/-- One finding, from the Issue interface in src/types.ts (optional location and
rule/suggestion fields included for fidelity; no claim depends on them). -/
structure Issue where
  type : IssueType
  severity : IssueSeverity
  message : String
  line : Option Nat := none
  column : Option Nat := none
  rule : Option String := none
  suggestion : Option String := none
deriving DecidableEq, Repr

/-- Per-file result, from the AnalysisResult interface in src/types.ts. -/
structure AnalysisResult where
  file : String
  issues : List Issue
deriving DecidableEq, Repr

/-- The fixed-shape summary of ProjectAnalysis in src/types.ts. -/
structure Summary where
  typeErrors : Nat
  jsFiles : Nat
  refactoringOpportunities : Nat
  securityIssues : Nat
  performanceIssues : Nat
deriving DecidableEq, Repr

/-- The terminal aggregate, from the ProjectAnalysis interface in src/types.ts.
The analysisTime and metadata fields (wall-clock time, timestamp, version) are not
modelled; no claim depends on them. -/
structure ProjectAnalysis where
  totalFiles : Nat
  analyzedFiles : Nat
  results : List AnalysisResult
  summary : Summary
deriving DecidableEq, Repr

/-- Shallow embedding of AnalysisEngine.createBatches (analysisEngine.ts lines
247-253): the loop starts at index 0, advances by batchSize, and pushes
items.slice(i, i + batchSize) each iteration.  For batchSize = 0 the JS loop would
not terminate on a nonempty input; the engine only ever calls this with its clamped
batchSize, which is at least 1, and we return [] in that out-of-contract case. -/
def createBatches {α : Type} (items : List α) (batchSize : Nat) : List (List α) :=
  if batchSize = 0 then []
  else if h : items.isEmpty then []
  else items.take batchSize :: createBatches (items.drop batchSize) batchSize
termination_by items.length
decreasing_by
  simp only [List.length_drop]
  have hb : 0 < batchSize := Nat.pos_of_ne_zero (by assumption)
  have hi : items ≠ [] := by
    intro hcontra
    exact h (by simp [hcontra])
  have : 0 < items.length := List.length_pos.mpr hi
  omega

theorem createBatches_nil {α : Type} (b : Nat) : createBatches ([] : List α) b = [] := by
  unfold createBatches
  simp

theorem createBatches_cons {α : Type} (items : List α) (b : Nat) (hb : b ≠ 0)
    (hi : items ≠ []) :
    createBatches items b = items.take b :: createBatches (items.drop b) b := by
  rw [createBatches]
  simp [hb, hi]

theorem createBatches_ne_nil {α : Type} (items : List α) (b : Nat) (hb : b ≠ 0)
    (hi : items ≠ []) : createBatches items b ≠ [] := by
  rw [createBatches_cons items b hb hi]
  simp

/-- Concatenating the batches gives back the original list. -/
theorem join_createBatches {α : Type} (items : List α) (b : Nat) (hb : 0 < b) :
    (createBatches items b).flatten = items := by
  generalize hn : items.length = n
  induction n using Nat.strong_induction_on generalizing items with
  | _ n ih =>
    by_cases hi : items = []
    · subst hi; simp [createBatches_nil]
    · rw [createBatches_cons items b (Nat.pos_iff_ne_zero.mp hb) hi]
      have hlen : (items.drop b).length < n := by
        rw [List.length_drop]
        have : 0 < items.length := List.length_pos.mpr hi
        omega
      rw [List.flatten_cons]
      rw [ih _ hlen (items.drop b) rfl]
      exact List.take_append_drop b items

/-- Number of batches is the ceiling of length over batch size. -/
theorem length_createBatches {α : Type} (items : List α) (b : Nat) (hb : 0 < b) :
    (createBatches items b).length = (items.length + b - 1) / b := by
  generalize hn : items.length = n
  induction n using Nat.strong_induction_on generalizing items with
  | _ n ih =>
    by_cases hi : items = []
    · subst hi
      simp only [List.length_nil] at hn
      subst hn
      rw [createBatches_nil]
      simp [Nat.div_eq_of_lt (by omega : b - 1 < b)]
    · rw [createBatches_cons items b (Nat.pos_iff_ne_zero.mp hb) hi]
      have hpos : 0 < items.length := List.length_pos.mpr hi
      have hlen : (items.drop b).length < n := by
        rw [List.length_drop]; omega
      simp only [List.length_cons]
      rw [ih _ (by omega) (items.drop b) rfl]
      rw [List.length_drop]
      subst hn
      rcases le_or_lt items.length b with hle | hlt
      · have h1 : items.length - b = 0 := by omega
        rw [h1]
        have h2 : (0 + b - 1) / b = 0 := Nat.div_eq_of_lt (by omega)
        rw [h2]
        have h3 : items.length + b - 1 = (items.length - 1) + b := by omega
        rw [h3, Nat.add_div_right _ hb, Nat.div_eq_of_lt (by omega)]
      · have h3 : items.length - b + b - 1 = (items.length - b - 1) + b := by omega
        have h4 : items.length + b - 1 = ((items.length - b - 1) + b) + b := by omega
        rw [h3, h4, Nat.add_div_right _ hb, Nat.add_div_right _ hb,
          Nat.add_div_right _ hb]

/-- Every batch except possibly the last has exactly b elements. -/
theorem createBatches_sizes {α : Type} (items : List α) (b : Nat) (hb : 0 < b) :
    ∀ c ∈ (createBatches items b).dropLast, c.length = b := by
  generalize hn : items.length = n
  induction n using Nat.strong_induction_on generalizing items with
  | _ n ih =>
    by_cases hi : items = []
    · subst hi; rw [createBatches_nil]; intro c hc; simp at hc
    · rw [createBatches_cons items b (Nat.pos_iff_ne_zero.mp hb) hi]
      have hpos : 0 < items.length := List.length_pos.mpr hi
      by_cases hrest : items.drop b = []
      · rw [hrest, createBatches_nil]
        intro c hc; simp at hc
      · have hne : createBatches (items.drop b) b ≠ [] :=
          createBatches_ne_nil _ b (Nat.pos_iff_ne_zero.mp hb) hrest
        intro c hc
        rw [List.dropLast_cons_of_ne_nil hne] at hc
        rcases List.mem_cons.mp hc with hc | hc
        · subst hc
          rw [List.length_take]
          have hgt : b < items.length := by
            by_contra hle
            exact hrest (List.drop_eq_nil_of_le (by omega))
          omega
        · have hlen : (items.drop b).length < n := by
            rw [List.length_drop]; omega
          exact ih _ (by omega) (items.drop b) rfl c hc

/-- Outcome of one per-file job as observed by Promise.allSettled in analyzeProject
(analysisEngine.ts line 162): either the promise fulfilled with an AnalysisResult or
it rejected with a reason. -/
inductive SettledResult where
  | fulfilled (value : AnalysisResult)
  | rejected (reason : String)
deriving DecidableEq, Repr

/-- Shallow embedding of the batch-result collection loop (analysisEngine.ts lines
165-171).  The accumulator carries the growing results array and the console.error
log of (file, reason) pairs; batch[index] pairs each settled outcome with its file,
which the zip reproduces.  Fulfilled results with at least one issue are pushed,
fulfilled results with zero issues are dropped, rejections are logged and dropped. -/
def collectSettled (acc : List AnalysisResult × List (String × String))
    (batch : List String) (settled : List SettledResult) :
    List AnalysisResult × List (String × String) :=
  (settled.zip batch).foldl
    (fun a p =>
      match p.1 with
      | .fulfilled r => if 0 < r.issues.length then (a.1 ++ [r], a.2) else a
      | .rejected reason => (a.1, a.2 ++ [(p.2, reason)]))
    acc

/-- Shallow embedding of one summary field (analysisEngine.ts lines 186-190):
results.reduce((sum, r) => sum + r.issues.filter(i => i.type === t).length, 0). -/
def countIssues (results : List AnalysisResult) (t : IssueType) : Nat :=
  results.foldl (fun sum r => sum + (r.issues.filter (fun i => i.type = t)).length) 0

/-- Shallow embedding of the summary object built at analysisEngine.ts lines 185-191. -/
def makeSummary (results : List AnalysisResult) : Summary :=
  { typeErrors := countIssues results .TYPE_ERROR
    jsFiles := countIssues results .JS_TO_TS
    refactoringOpportunities := countIssues results .REFACTORING
    securityIssues := countIssues results .SECURITY
    performanceIssues := countIssues results .PERFORMANCE }

/-- What analyzeProject hands back together with its console side channel: the
returned ProjectAnalysis, the console.warn record of (found, analyzed) emitted when
the file cap truncates (line 133), and the console.error log of failed files
(line 169). -/
structure RunOutput where
  analysis : ProjectAnalysis
  warnings : List (Nat × Nat)
  errorLog : List (String × String)
deriving DecidableEq, Repr

/-- Shallow embedding of AnalysisEngine.analyzeProject (analysisEngine.ts lines
119-206).  File discovery and the per-file worker round trip are abstracted: allFiles
stands for the list FileUtils.findReactFiles returned, and oracle gives the settled
outcome of the worker promise for each file.  The engine takes the first maxFiles
files (allFiles.slice(0, maxFiles)), warns if it truncated, partitions into batches,
collects each batch's settled outcomes in order, and builds the summary from the
retained results. -/
def analyzeProject (allFiles : List String) (maxFiles batchSize : Nat)
    (oracle : String → SettledResult) : RunOutput :=
  let filesToAnalyze := allFiles.take maxFiles
  let warnings := if maxFiles < allFiles.length then [(allFiles.length, maxFiles)] else []
  let batches := createBatches filesToAnalyze batchSize
  let collected := batches.foldl
    (fun acc batch => collectSettled acc batch (batch.map oracle)) ([], [])
  { analysis :=
      { totalFiles := allFiles.length
        analyzedFiles := filesToAnalyze.length
        results := collected.1
        summary := makeSummary collected.1 }
    warnings := warnings
    errorLog := collected.2 }

/-- Specification-side count: the number of findings of category t summed across all
FileResults of a results list, written as a count over the flattened finding list.
This is the spec's wording of the summary invariant, to be compared with the
engine's fold countIssues. -/
def totalFindings (results : List AnalysisResult) (t : IssueType) : Nat :=
  (((results.map (fun r => r.issues)).flatten).filter (fun i => i.type = t)).length

theorem countIssues_foldl_shift (l : List AnalysisResult) (t : IssueType) (a : Nat) :
    l.foldl (fun sum r => sum + (r.issues.filter (fun i => i.type = t)).length) a
      = a + l.foldl (fun sum r => sum + (r.issues.filter (fun i => i.type = t)).length) 0 := by
  induction l generalizing a with
  | nil => simp
  | cons r rs ih =>
    simp only [List.foldl_cons]
    rw [ih (a + _), ih (0 + _)]
    omega

/-- The engine's fold agrees with the spec's count over the flattened findings. -/
theorem countIssues_eq_totalFindings (results : List AnalysisResult) (t : IssueType) :
    countIssues results t = totalFindings results t := by
  induction results with
  | nil => simp [countIssues, totalFindings]
  | cons r rs ih =>
    unfold countIssues totalFindings
    simp only [List.foldl_cons, List.map_cons, List.flatten_cons, List.filter_append,
      List.length_append]
    rw [countIssues_foldl_shift]
    unfold countIssues totalFindings at ih
    omega

/-- C8: for every settled per-file job in a batch, a fulfilled result with at least
one finding is appended to the accumulating result set, a fulfilled result with zero
findings is discarded, and a rejected job is appended to the error log with its file
path and reason while contributing nothing to the results; the collection is a total
function of the settled outcomes, so no failure aborts the run. -/
theorem settled_job_handling (acc : List AnalysisResult × List (String × String))
    (batch : List String) (settled : List SettledResult) :
    collectSettled acc batch settled =
      (acc.1 ++ (settled.zip batch).filterMap (fun p =>
          match p.1 with
          | .fulfilled r => if 0 < r.issues.length then some r else none
          | .rejected _ => none),
       acc.2 ++ (settled.zip batch).filterMap (fun p =>
          match p.1 with
          | .fulfilled _ => none
          | .rejected e => some (p.2, e))) := by
  unfold collectSettled
  generalize settled.zip batch = l
  induction l generalizing acc with
  | nil => simp
  | cons p l ih =>
    obtain ⟨sr, f⟩ := p
    cases sr with
    | fulfilled r =>
      simp only [List.foldl_cons, List.filterMap_cons]
      by_cases hr : 0 < r.issues.length
      · simp only [if_pos hr]
        rw [ih]
        simp
      · simp only [if_neg hr]
        rw [ih]
    | rejected e =>
      simp only [List.foldl_cons, List.filterMap_cons]
      rw [ih]
      simp

/-- C1: for every run of analyzeProject, each of the five summary counts of the
returned ProjectAnalysis equals the number of findings of the corresponding category
summed across all FileResults in the returned results list. -/
theorem summary_invariant (allFiles : List String) (maxFiles batchSize : Nat)
    (oracle : String → SettledResult) :
    (analyzeProject allFiles maxFiles batchSize oracle).analysis.summary.typeErrors
      = totalFindings (analyzeProject allFiles maxFiles batchSize oracle).analysis.results
          .TYPE_ERROR ∧
    (analyzeProject allFiles maxFiles batchSize oracle).analysis.summary.jsFiles
      = totalFindings (analyzeProject allFiles maxFiles batchSize oracle).analysis.results
          .JS_TO_TS ∧
    (analyzeProject allFiles maxFiles batchSize oracle).analysis.summary.refactoringOpportunities
      = totalFindings (analyzeProject allFiles maxFiles batchSize oracle).analysis.results
          .REFACTORING ∧
    (analyzeProject allFiles maxFiles batchSize oracle).analysis.summary.securityIssues
      = totalFindings (analyzeProject allFiles maxFiles batchSize oracle).analysis.results
          .SECURITY ∧
    (analyzeProject allFiles maxFiles batchSize oracle).analysis.summary.performanceIssues
      = totalFindings (analyzeProject allFiles maxFiles batchSize oracle).analysis.results
          .PERFORMANCE := by
  refine ⟨?_, ?_, ?_, ?_, ?_⟩ <;>
    simp [analyzeProject, makeSummary, countIssues_eq_totalFindings]

/-- C7: for a run that discovered N files with cap maxFiles = M, the returned
totalFiles is N; the files submitted for analysis, batch by batch in order, are
exactly the first min M N files; when M is smaller than N, analyzedFiles is M and
the truncation warning with the true and analyzed counts is recorded; when M is at
least N, analyzedFiles is N (and no truncation warning is emitted). -/
theorem file_cap_respected (allFiles : List String) (maxFiles batchSize : Nat)
    (oracle : String → SettledResult) (hb : 0 < batchSize) :
    (analyzeProject allFiles maxFiles batchSize oracle).analysis.totalFiles
      = allFiles.length ∧
    (createBatches (allFiles.take maxFiles) batchSize).flatten = allFiles.take maxFiles ∧
    (maxFiles < allFiles.length →
      (analyzeProject allFiles maxFiles batchSize oracle).analysis.analyzedFiles = maxFiles ∧
      (analyzeProject allFiles maxFiles batchSize oracle).warnings
        = [(allFiles.length, maxFiles)]) ∧
    (allFiles.length ≤ maxFiles →
      (analyzeProject allFiles maxFiles batchSize oracle).analysis.analyzedFiles
        = allFiles.length ∧
      (analyzeProject allFiles maxFiles batchSize oracle).warnings = []) := by
  refine ⟨?_, join_createBatches _ _ hb, fun h => ⟨?_, ?_⟩, fun h => ⟨?_, ?_⟩⟩
  · simp [analyzeProject]
  · simp [analyzeProject, List.length_take]
    omega
  · simp [analyzeProject, h]
  · simp [analyzeProject, List.length_take]
    omega
  · simp [analyzeProject]
    omega

/-- Witness for file_cap_respected at three files, cap two, batch size one. -/
theorem file_cap_respected_witness :
    0 < 1 ∧
    ((analyzeProject ["a", "b", "c"] 2 1
        (fun _ => SettledResult.rejected "boom")).analysis.totalFiles = 3 ∧
     (createBatches (["a", "b", "c"].take 2) 1).flatten = ["a", "b", "c"].take 2 ∧
     (2 < 3 →
       (analyzeProject ["a", "b", "c"] 2 1
          (fun _ => SettledResult.rejected "boom")).analysis.analyzedFiles = 2 ∧
       (analyzeProject ["a", "b", "c"] 2 1
          (fun _ => SettledResult.rejected "boom")).warnings = [(3, 2)]) ∧
     (3 ≤ 2 →
       (analyzeProject ["a", "b", "c"] 2 1
          (fun _ => SettledResult.rejected "boom")).analysis.analyzedFiles = 3 ∧
       (analyzeProject ["a", "b", "c"] 2 1
          (fun _ => SettledResult.rejected "boom")).warnings = [])) := by
  refine ⟨by decide, ?_⟩
  have h := file_cap_respected ["a", "b", "c"] 2 1
    (fun _ => SettledResult.rejected "boom") (by decide)
  simpa using h

/-- C9: for every file list of length F and batch size B between 1 and 1000,
createBatches produces exactly the ceiling of F over B many batches, every batch
except possibly the last has exactly B elements, and the empty list yields zero
batches. -/
theorem batch_sizing {α : Type} (items : List α) (b : Nat) (h1 : 1 ≤ b)
    (h2 : b ≤ 1000) :
    (createBatches items b).length = (items.length + b - 1) / b ∧
    (∀ c ∈ (createBatches items b).dropLast, c.length = b) ∧
    (items = [] → createBatches items b = []) :=
  ⟨length_createBatches items b h1, createBatches_sizes items b h1,
    fun h => by subst h; exact createBatches_nil b⟩

/-- Witness for batch_sizing at five elements with batch size two. -/
theorem batch_sizing_witness :
    (1 ≤ 2 ∧ 2 ≤ 1000) ∧
    ((createBatches [10, 20, 30, 40, 50] 2).length = (5 + 2 - 1) / 2 ∧
     (∀ c ∈ (createBatches [10, 20, 30, 40, 50] 2).dropLast, c.length = 2) ∧
     ([10, 20, 30, 40, 50] = ([] : List Nat) → createBatches [10, 20, 30, 40, 50] 2 = [])) := by
  refine ⟨by decide, ?_⟩
  have h := batch_sizing [10, 20, 30, 40, 50] 2 (by decide) (by decide)
  simpa using h

/-- C10: for every input list and positive batch size, concatenating the batches
returned by createBatches in order yields the original list, so no element is
dropped, duplicated or reordered and each capped file is submitted exactly once. -/
theorem batches_preserve_files {α : Type} (items : List α) (b : Nat) (hb : 0 < b) :
    (createBatches items b).flatten = items :=
  join_createBatches items b hb

/-- Witness for batches_preserve_files on a three-element list with batch size two. -/
theorem batches_preserve_files_witness :
    0 < 2 ∧ (createBatches [10, 20, 30] 2).flatten = [10, 20, 30] :=
  ⟨by decide, batches_preserve_files [10, 20, 30] 2 (by decide)⟩

/-- Behavior of one analyzer on the file under analysis: analyzer.analyzeFile either
returns a result whose issues field is the given list, or throws.  Abstracts the five
concrete analyzers, which are out of scope black boxes for the engine. -/
inductive AnalyzerOutcome where
  | ok (issues : List Issue)
  | throws (msg : String)
deriving DecidableEq, Repr

/-- Shallow embedding of the analyzer loop in the worker's analyzeFile (worker
script lines 96-109): for each requested issue type the analyzer runs inside its own
try/catch; on success a nonempty issue list is pushed onto allIssues, on a throw the
error is logged and the loop continues with the remaining analyzers.  The analyzers
record is built with an entry for every IssueType (all five analyzers), so the
truthiness guard if (analyzer) always passes. -/
def runAnalyzers (behavior : IssueType → AnalyzerOutcome)
    (issueTypes : List IssueType) : List Issue :=
  issueTypes.foldl
    (fun allIssues t =>
      match behavior t with
      | .ok issues => if 0 < issues.length then allIssues ++ issues else allIssues
      | .throws _ => allIssues)
    []

/-- Shallow embedding of the worker's analyzeFile (worker script lines 86-122):
initializeAnalyzers may itself throw (initFails), in which case the outer catch logs
and returns a result with an empty issue list for the file; otherwise the
per-analyzer loop runs and the collected issues are returned.  In both cases the
function returns normally, so no per-file failure propagates out of the wrapper. -/
def analyzeFile (initFails : Bool) (behavior : IssueType → AnalyzerOutcome)
    (filePath : String) (issueTypes : List IssueType) : AnalysisResult :=
  if initFails then { file := filePath, issues := [] }
  else { file := filePath, issues := runAnalyzers behavior issueTypes }

/-- What one analyzer contributes to the file's issue list: its issues on success,
nothing on a throw. -/
def analyzerContribution (behavior : IssueType → AnalyzerOutcome)
    (t : IssueType) : List Issue :=
  match behavior t with
  | .ok issues => issues
  | .throws _ => []

theorem runAnalyzers_foldl_shift (behavior : IssueType → AnalyzerOutcome)
    (issueTypes : List IssueType) (a : List Issue) :
    issueTypes.foldl
      (fun allIssues t =>
        match behavior t with
        | .ok issues => if 0 < issues.length then allIssues ++ issues else allIssues
        | .throws _ => allIssues)
      a = a ++ (issueTypes.map (analyzerContribution behavior)).flatten := by
  induction issueTypes generalizing a with
  | nil => simp
  | cons t ts ih =>
    simp only [List.foldl_cons, List.map_cons, List.flatten_cons]
    rcases hb : behavior t with issues | msg
    all_goals dsimp only
    · by_cases hlen : 0 < issues.length
      · rw [if_pos hlen, ih]
        simp [analyzerContribution, hb]
      · have hnil : issues = [] := by
          cases issues with
          | nil => rfl
          | cons x xs => exact absurd (by simp) hlen
        rw [if_neg hlen, ih]
        simp [analyzerContribution, hb, hnil]
    · rw [ih]
      simp [analyzerContribution, hb]

/-- The analyzer loop produces exactly the concatenation of the per-analyzer
contributions, in request order. -/
theorem runAnalyzers_eq (behavior : IssueType → AnalyzerOutcome)
    (issueTypes : List IssueType) :
    runAnalyzers behavior issueTypes
      = (issueTypes.map (analyzerContribution behavior)).flatten := by
  unfold runAnalyzers
  rw [runAnalyzers_foldl_shift]
  simp

/-- C5: a single throwing analyzer does not fail the file.  The file's issue list is
the concatenation of the per-analyzer contributions, where a throwing analyzer
contributes nothing; the result is unchanged if the throwing analyzer is replaced by
one returning no issues, so every other requested analyzer still contributes its
findings; and only a failure of the whole file unit (initFails) yields an empty
finding list, returned normally rather than thrown. -/
theorem analyzer_isolation (behavior : IssueType → AnalyzerOutcome)
    (filePath : String) (issueTypes : List IssueType) (t0 : IssueType) (msg : String)
    (hthrow : behavior t0 = AnalyzerOutcome.throws msg) :
    (analyzeFile false behavior filePath issueTypes).issues
      = (issueTypes.map (analyzerContribution behavior)).flatten ∧
    (analyzeFile false behavior filePath issueTypes).issues
      = (analyzeFile false
          (fun u => if u = t0 then AnalyzerOutcome.ok [] else behavior u)
          filePath issueTypes).issues ∧
    analyzeFile true behavior filePath issueTypes
      = { file := filePath, issues := [] } := by
  refine ⟨?_, ?_, rfl⟩
  · simp [analyzeFile, runAnalyzers_eq]
  · simp only [analyzeFile, if_neg Bool.false_ne_true, runAnalyzers_eq]
    congr 1
    apply List.map_congr_left
    intro t _
    by_cases ht : t = t0
    · subst ht
      simp [analyzerContribution, hthrow]
    · simp [analyzerContribution, ht]

/-- Witness for analyzer_isolation: the security analyzer always throws while the
performance analyzer reports one finding; the file still carries the performance
finding. -/
theorem analyzer_isolation_witness :
    (fun t => if t = IssueType.SECURITY then AnalyzerOutcome.throws "boom"
        else AnalyzerOutcome.ok
          [{ type := t, severity := IssueSeverity.WARNING, message := "m" }])
        IssueType.SECURITY = AnalyzerOutcome.throws "boom" ∧
    (analyzeFile false
      (fun t => if t = IssueType.SECURITY then AnalyzerOutcome.throws "boom"
        else AnalyzerOutcome.ok
          [{ type := t, severity := IssueSeverity.WARNING, message := "m" }])
      "f.tsx" [IssueType.SECURITY, IssueType.PERFORMANCE]).issues
      = ([IssueType.SECURITY, IssueType.PERFORMANCE].map
          (analyzerContribution
            (fun t => if t = IssueType.SECURITY then AnalyzerOutcome.throws "boom"
              else AnalyzerOutcome.ok
                [{ type := t, severity := IssueSeverity.WARNING, message := "m" }]))).flatten := by
  refine ⟨by decide, ?_⟩
  exact (analyzer_isolation
    (fun t => if t = IssueType.SECURITY then AnalyzerOutcome.throws "boom"
      else AnalyzerOutcome.ok
        [{ type := t, severity := IssueSeverity.WARNING, message := "m" }])
    "f.tsx" [IssueType.SECURITY, IssueType.PERFORMANCE]
    IssueType.SECURITY "boom" (by decide)).1

/-- Engine options, from the AnalysisEngineOptions interface in analysisEngine.ts.
The numeric fields are JS numbers used only through comparisons, modelled as
integers; configPath plays no role in the clamping claims and is omitted. -/
structure AnalysisEngineOptions where
  batchSize : Int
  workerCount : Int
  maxFiles : Int
deriving DecidableEq, Repr

/-- Shallow embedding of the clamping in the AnalysisEngine constructor
(analysisEngine.ts lines 30-38): Math.max and Math.min applied to the
caller-supplied values. -/
def mkEngineOptions (o : AnalysisEngineOptions) : AnalysisEngineOptions :=
  { batchSize := max 1 (min 1000 o.batchSize)
    workerCount := max 1 (min 8 o.workerCount)
    maxFiles := max 100 o.maxFiles }

/-- The analysis section of a configuration file as read by loadConfiguration
(analysisEngine.ts lines 274-278); none stands for an absent field. -/
structure AnalysisConfig where
  batchSize : Option Int
  workerCount : Option Int
  maxFiles : Option Int
deriving DecidableEq, Repr

/-- The JS expression config.analysis.x || this.options.x: an absent or falsy
(zero) configuration value keeps the old option, any other value replaces it. -/
def orFalsy (v : Option Int) (old : Int) : Int :=
  match v with
  | none => old
  | some x => if x = 0 then old else x

/-- Shallow embedding of loadConfiguration (analysisEngine.ts lines 268-282): when
the file loads and has an analysis section (some c), each option is overwritten by
the configuration value through the || fallback, with no clamping; a missing
analysis section or a load failure (none) leaves the options unchanged (the catch
branch only warns). -/
def loadConfiguration (opts : AnalysisEngineOptions) (cfg : Option AnalysisConfig) :
    AnalysisEngineOptions :=
  match cfg with
  | none => opts
  | some c =>
    { batchSize := orFalsy c.batchSize opts.batchSize
      workerCount := orFalsy c.workerCount opts.workerCount
      maxFiles := orFalsy c.maxFiles opts.maxFiles }

/-- The bounds the claim asserts for the effective options: batchSize in [1,1000],
workerCount in [1,8], maxFiles at least 100. -/
def optionsInBounds (o : AnalysisEngineOptions) : Prop :=
  1 ≤ o.batchSize ∧ o.batchSize ≤ 1000 ∧
  1 ≤ o.workerCount ∧ o.workerCount ≤ 8 ∧
  100 ≤ o.maxFiles

instance : DecidablePred optionsInBounds := fun o => by
  unfold optionsInBounds
  infer_instance

/-- A configuration value is harmless for a bounded option: absent, falsy, or
within the given bounds. -/
def cfgValueOk (v : Option Int) (lo hi : Int) : Bool :=
  match v with
  | none => true
  | some x => x == 0 || (decide (lo ≤ x) && decide (x ≤ hi))

/-- A configuration value is harmless for the lower-bounded maxFiles option:
absent, falsy, or at least the bound. -/
def cfgValueLoOk (v : Option Int) (lo : Int) : Bool :=
  match v with
  | none => true
  | some x => x == 0 || decide (lo ≤ x)

theorem orFalsy_bounds (v : Option Int) (old lo hi : Int)
    (hold : lo ≤ old ∧ old ≤ hi) (hv : cfgValueOk v lo hi = true) :
    lo ≤ orFalsy v old ∧ orFalsy v old ≤ hi := by
  cases v with
  | none => simpa [orFalsy] using hold
  | some x =>
    simp only [orFalsy]
    by_cases hx : x = 0
    · simpa [hx] using hold
    · simp only [if_neg hx]
      simp [cfgValueOk, hx] at hv
      omega

theorem orFalsy_lo (v : Option Int) (old lo : Int)
    (hold : lo ≤ old) (hv : cfgValueLoOk v lo = true) :
    lo ≤ orFalsy v old := by
  cases v with
  | none => simpa [orFalsy] using hold
  | some x =>
    simp only [orFalsy]
    by_cases hx : x = 0
    · simpa [hx] using hold
    · simp only [if_neg hx]
      simp [cfgValueLoOk, hx] at hv
      omega

/-- C6 fails on the code: constructing the engine with in-range options and then
loading a configuration whose analysis.batchSize is 5000 leaves the effective
batchSize at 5000, outside [1,1000] — loadConfiguration applies no clamping. -/
theorem config_escapes_clamping :
    (loadConfiguration (mkEngineOptions ⟨100, 4, 10000⟩)
        (some ⟨some 5000, none, none⟩)).batchSize = 5000 ∧
    ¬ optionsInBounds (loadConfiguration (mkEngineOptions ⟨100, 4, 10000⟩)
        (some ⟨some 5000, none, none⟩)) := by decide

/-- C6 amended: the constructor clamps every caller-supplied value into
batchSize in [1,1000], workerCount in [1,8] and maxFiles at least 100; a
configuration load overwrites the options with the file's nonzero values without
clamping, so the bounds persist after a load exactly when each supplied
configuration value is itself absent, falsy, or within the corresponding bound. -/
theorem options_clamped (o : AnalysisEngineOptions) (c : AnalysisConfig)
    (hb : cfgValueOk c.batchSize 1 1000 = true)
    (hw : cfgValueOk c.workerCount 1 8 = true)
    (hm : cfgValueLoOk c.maxFiles 100 = true) :
    optionsInBounds (mkEngineOptions o) ∧
    optionsInBounds (loadConfiguration (mkEngineOptions o) none) ∧
    optionsInBounds (loadConfiguration (mkEngineOptions o) (some c)) := by
  have hcon : optionsInBounds (mkEngineOptions o) := by
    unfold optionsInBounds mkEngineOptions
    dsimp only
    omega
  refine ⟨hcon, hcon, ?_⟩
  obtain ⟨h1, h2, h3, h4, h5⟩ := hcon
  have hB := orFalsy_bounds c.batchSize (mkEngineOptions o).batchSize 1 1000 ⟨h1, h2⟩ hb
  have hW := orFalsy_bounds c.workerCount (mkEngineOptions o).workerCount 1 8 ⟨h3, h4⟩ hw
  have hM := orFalsy_lo c.maxFiles (mkEngineOptions o).maxFiles 100 h5 hm
  unfold optionsInBounds loadConfiguration
  dsimp only
  exact ⟨hB.1, hB.2, hW.1, hW.2, hM⟩

/-- Witness for options_clamped: out-of-range caller options and a configuration
supplying an in-range batch size and file cap. -/
theorem options_clamped_witness :
    (cfgValueOk (some 50) 1 1000 = true ∧
     cfgValueOk none 1 8 = true ∧
     cfgValueLoOk (some 200) 100 = true) ∧
    (optionsInBounds (mkEngineOptions ⟨-7, 99, 3⟩) ∧
     optionsInBounds (loadConfiguration (mkEngineOptions ⟨-7, 99, 3⟩) none) ∧
     optionsInBounds (loadConfiguration (mkEngineOptions ⟨-7, 99, 3⟩)
        (some ⟨some 50, none, some 200⟩))) :=
  ⟨by decide, options_clamped ⟨-7, 99, 3⟩ ⟨some 50, none, some 200⟩
    (by decide) (by decide) (by decide)⟩

/-- Outcome with which a pending job's promise is settled by the engine. -/
inductive JobOutcome where
  | resolved
  | rejectedError
  | rejectedTimeout
deriving DecidableEq, Repr

/-- State of the AnalysisEngine's worker-pool and job bookkeeping
(analysisEngine.ts lines 23-28): workers models this.workers and workerPool models
this.workerPool, both holding worker identifiers (fresh identifiers stand for newly
constructed Worker objects); activeJobs holds the keys of the this.activeJobs map;
jobId is the this.jobId counter; jobWorker records, for each submitted job, the
worker captured by its setTimeout closure; terminated is an append-only log of the
resolve and reject calls made on job promises, in order. -/
structure EngineState where
  workers : List Nat
  workerPool : List Nat
  activeJobs : List Nat
  jobId : Nat
  nextWorker : Nat
  jobWorker : List (Nat × Nat)
  terminated : List (Nat × JobOutcome)
deriving DecidableEq, Repr

/-- The asynchronous engine events, one per code path that mutates the state:
submit is the body of analyzeFileWithWorker once a worker is available (lines
224-243); message is a worker posting \x7bjobId, result\x7d or \x7bjobId, error\x7d
into the message handler (lines 59-73 and 99-112); timeoutFire is the 30-second
setTimeout callback of a submitted job firing, with the worker the closure captured
(lines 237-243); workerError is a worker emitting an error event, which invokes
replaceWorker (lines 75-79 and 86-117). -/
inductive Event where
  | submit
  | message (worker : Nat) (jobId : Nat) (isError : Bool)
  | timeoutFire (jobId : Nat) (worker : Nat)
  | workerError (worker : Nat)
deriving DecidableEq, Repr

/-- Replace the first occurrence of w by fresh: this.workers[this.workers.indexOf(w)]
= newWorker at line 114 (indexOf finds the first occurrence). -/
def replaceFirst (l : List Nat) (w fresh : Nat) : List Nat :=
  match l with
  | [] => []
  | x :: xs => if x = w then fresh :: xs else x :: replaceFirst xs w fresh

/-- One engine step.  submit with an empty pool is the setTimeout retry at lines
216-221, which changes no engine state; otherwise workerPool.pop() takes the last
entry, the job counter is pre-incremented and the job is inserted into activeJobs
(lines 224-227).  message and timeoutFire first test activeJobs.has(jobId); if the
job is gone they do nothing, otherwise they delete it, settle the promise and push
the worker back into the pool (lines 60-72 and 238-242).  workerError runs
replaceWorker: if the worker is found in this.workers it is terminated and replaced
there, and the replacement is pushed onto workerPool; the faulted worker is not
removed from workerPool (lines 86-117). -/
def step (s : EngineState) (e : Event) : EngineState :=
  match e with
  | .submit =>
    match s.workerPool.getLast? with
    | none => s
    | some w =>
      { s with workerPool := s.workerPool.dropLast
               jobId := s.jobId + 1
               activeJobs := (s.jobId + 1) :: s.activeJobs
               jobWorker := (s.jobId + 1, w) :: s.jobWorker }
  | .message w j isErr =>
    if j ∈ s.activeJobs then
      { s with activeJobs := s.activeJobs.erase j
               terminated := s.terminated
                 ++ [(j, if isErr then JobOutcome.rejectedError else JobOutcome.resolved)]
               workerPool := s.workerPool ++ [w] }
    else s
  | .timeoutFire j w =>
    if j ∈ s.activeJobs then
      { s with activeJobs := s.activeJobs.erase j
               terminated := s.terminated ++ [(j, JobOutcome.rejectedTimeout)]
               workerPool := s.workerPool ++ [w] }
    else s
  | .workerError w =>
    if w ∈ s.workers then
      { s with workers := replaceFirst s.workers w s.nextWorker
               nextWorker := s.nextWorker + 1
               workerPool := s.workerPool ++ [s.nextWorker] }
    else s

/-- Run a trace of events from a state. -/
def run (s : EngineState) (t : List Event) : EngineState :=
  t.foldl step s

/-- State after initializeWorkers with the given clamped worker count (lines
53-84): workerCount workers are constructed and pushed onto both this.workers and
this.workerPool, no job has been submitted. -/
def initState (workerCount : Nat) : EngineState :=
  { workers := List.range workerCount
    workerPool := List.range workerCount
    activeJobs := []
    jobId := 0
    nextWorker := workerCount
    jobWorker := []
    terminated := [] }

/-- The job ids that have been settled, in settlement order. -/
def termIds (s : EngineState) : List Nat :=
  s.terminated.map Prod.fst

/-- The 30-second job timeout constant at line 243. -/
def jobTimeoutMs : Nat := 30000

/-- C2 fails on the code: with a configured pool of two workers and no job in
flight, a single execution-context fault on worker 0 (which sits idle in
workerPool) leaves the faulted worker in workerPool and appends the freshly created
replacement, so the available pool grows to three slots, one of which is a
terminated worker: replaceWorker never removes the faulted worker from
this.workerPool, only from this.workers. -/
theorem pool_grows_on_idle_fault :
    (run (initState 2) [Event.workerError 0]).workerPool = [0, 1, 2] ∧
    (run (initState 2) [Event.workerError 0]).workers = [2, 1] ∧
    (run (initState 2) [Event.workerError 0]).activeJobs = [] ∧
    (run (initState 2) [Event.workerError 0]).workerPool.length ≠ 2 := by decide

theorem run_append (s : EngineState) (t1 t2 : List Event) :
    run s (t1 ++ t2) = run (run s t1) t2 := by
  simp [run, List.foldl_append]

theorem run_cons (s : EngineState) (e : Event) (t : List Event) :
    run s (e :: t) = run (step s e) t := rfl

theorem termIds_step_mono (s : EngineState) (e : Event) (j : Nat)
    (h : j ∈ termIds s) : j ∈ termIds (step s e) := by
  cases e with
  | submit =>
    unfold step
    rcases hl : s.workerPool.getLast? with _ | w
    · exact h
    · simpa [termIds] using h
  | message w j2 isErr =>
    unfold step
    by_cases hj : j2 ∈ s.activeJobs
    · simp only [if_pos hj]
      simp only [termIds, List.map_append] at h ⊢
      exact List.mem_append_left _ h
    · simp only [if_neg hj]
      exact h
  | timeoutFire j2 w =>
    unfold step
    by_cases hj : j2 ∈ s.activeJobs
    · simp only [if_pos hj]
      simp only [termIds, List.map_append] at h ⊢
      exact List.mem_append_left _ h
    · simp only [if_neg hj]
      exact h
  | workerError w =>
    unfold step
    by_cases hw : w ∈ s.workers
    · simp only [if_pos hw]
      simpa [termIds] using h
    · simp only [if_neg hw]
      exact h

theorem termIds_run_mono (s : EngineState) (t : List Event) (j : Nat)
    (h : j ∈ termIds s) : j ∈ termIds (run s t) := by
  induction t generalizing s with
  | nil => exact h
  | cons e t ih => exact ih (step s e) (termIds_step_mono s e j h)

theorem activeOrTerm_step (s : EngineState) (e : Event) (j : Nat)
    (h : j ∈ s.activeJobs ∨ j ∈ termIds s) :
    j ∈ (step s e).activeJobs ∨ j ∈ termIds (step s e) := by
  cases e with
  | submit =>
    unfold step
    rcases hl : s.workerPool.getLast? with _ | w
    · exact h
    · rcases h with h | h
      · exact Or.inl (by simpa using Or.inr h)
      · exact Or.inr (by simpa [termIds] using h)
  | message w j2 isErr =>
    unfold step
    by_cases hj : j2 ∈ s.activeJobs
    · simp only [if_pos hj]
      rcases h with h | h
      · by_cases hjj : j = j2
        · subst hjj
          exact Or.inr (by simp [termIds])
        · exact Or.inl (by simpa using (List.mem_erase_of_ne hjj).mpr h)
      · exact Or.inr (by simp only [termIds, List.map_append]; exact List.mem_append_left _ h)
    · simp only [if_neg hj]
      exact h
  | timeoutFire j2 w =>
    unfold step
    by_cases hj : j2 ∈ s.activeJobs
    · simp only [if_pos hj]
      rcases h with h | h
      · by_cases hjj : j = j2
        · subst hjj
          exact Or.inr (by simp [termIds])
        · exact Or.inl (by simpa using (List.mem_erase_of_ne hjj).mpr h)
      · exact Or.inr (by simp only [termIds, List.map_append]; exact List.mem_append_left _ h)
    · simp only [if_neg hj]
      exact h
  | workerError w =>
    unfold step
    by_cases hw : w ∈ s.workers
    · simp only [if_pos hw]
      exact h
    · simp only [if_neg hw]
      exact h

theorem timeout_step_settles (s : EngineState) (j w : Nat)
    (h : j ∈ s.activeJobs ∨ j ∈ termIds s) :
    j ∈ termIds (step s (Event.timeoutFire j w)) := by
  unfold step
  by_cases hj : j ∈ s.activeJobs
  · simp only [if_pos hj]
    simp [termIds]
  · simp only [if_neg hj]
    exact h.resolve_left hj

/-- Bookkeeping invariant of reachable engine states: no job id is settled twice or
both settled and pending, and every issued id is bounded by the jobId counter. -/
def JobInv (s : EngineState) : Prop :=
  (termIds s ++ s.activeJobs).Nodup ∧
  (∀ j ∈ s.activeJobs, j ≤ s.jobId) ∧
  (∀ j ∈ termIds s, j ≤ s.jobId)

theorem jobInv_init (n : Nat) : JobInv (initState n) := by
  refine ⟨?_, ?_, ?_⟩ <;> simp [initState, termIds]

theorem settle_nodup (s : EngineState) (j2 : Nat) (o : JobOutcome)
    (hj : j2 ∈ s.activeJobs) (hnd : (termIds s ++ s.activeJobs).Nodup) :
    ((s.terminated ++ [(j2, o)]).map Prod.fst ++ s.activeJobs.erase j2).Nodup := by
  rw [List.map_append, List.append_assoc]
  simp only [List.map_cons, List.map_nil, List.singleton_append]
  have hperm : List.Perm (termIds s ++ s.activeJobs)
      (termIds s ++ j2 :: s.activeJobs.erase j2) :=
    List.Perm.append_left _ (List.perm_cons_erase hj)
  exact hperm.nodup hnd

theorem settle_term_bound (s : EngineState) (j2 : Nat) (o : JobOutcome)
    (hj : j2 ∈ s.activeJobs)
    (hact : ∀ j ∈ s.activeJobs, j ≤ s.jobId)
    (hterm : ∀ j ∈ termIds s, j ≤ s.jobId) :
    ∀ j ∈ (s.terminated ++ [(j2, o)]).map Prod.fst, j ≤ s.jobId := by
  intro j hjm
  simp only [List.map_append, List.map_cons, List.map_nil] at hjm
  rcases List.mem_append.mp hjm with hm | hm
  · exact hterm j hm
  · simp at hm
    subst hm
    exact hact _ hj

theorem jobInv_step (s : EngineState) (e : Event) (h : JobInv s) :
    JobInv (step s e) := by
  obtain ⟨hnd, hact, hterm⟩ := h
  cases e with
  | submit =>
    simp only [step]
    rcases hl : s.workerPool.getLast? with _ | w
    · exact ⟨hnd, hact, hterm⟩
    · unfold JobInv termIds
      dsimp only
      refine ⟨?_, ?_, ?_⟩
      · rw [List.nodup_middle, List.nodup_cons]
        refine ⟨fun hmem => ?_, hnd⟩
        rcases List.mem_append.mp hmem with hm | hm
        · exact absurd (hterm _ hm) (by omega)
        · exact absurd (hact _ hm) (by omega)
      · intro j hj
        rcases List.mem_cons.mp hj with rfl | hj
        · exact le_refl _
        · exact Nat.le_trans (hact j hj) (by omega)
      · intro j hj
        exact Nat.le_trans (hterm j hj) (by omega)
  | message w j2 isErr =>
    simp only [step]
    by_cases hj : j2 ∈ s.activeJobs
    · simp only [if_pos hj]
      unfold JobInv termIds
      dsimp only
      exact ⟨settle_nodup s j2 _ hj hnd,
        fun j hjm => hact j (List.mem_of_mem_erase hjm),
        settle_term_bound s j2 _ hj hact hterm⟩
    · simp only [if_neg hj]
      exact ⟨hnd, hact, hterm⟩
  | timeoutFire j2 w =>
    simp only [step]
    by_cases hj : j2 ∈ s.activeJobs
    · simp only [if_pos hj]
      unfold JobInv termIds
      dsimp only
      exact ⟨settle_nodup s j2 _ hj hnd,
        fun j hjm => hact j (List.mem_of_mem_erase hjm),
        settle_term_bound s j2 _ hj hact hterm⟩
    · simp only [if_neg hj]
      exact ⟨hnd, hact, hterm⟩
  | workerError w =>
    simp only [step]
    by_cases hw : w ∈ s.workers
    · simp only [if_pos hw]
      exact ⟨hnd, hact, hterm⟩
    · simp only [if_neg hw]
      exact ⟨hnd, hact, hterm⟩

theorem jobInv_run (n : Nat) (t : List Event) : JobInv (run (initState n) t) := by
  suffices h : ∀ s, JobInv s → JobInv (run s t) from h _ (jobInv_init n)
  induction t with
  | nil => exact fun s hs => hs
  | cons e t ih => exact fun s hs => ih (step s e) (jobInv_step s e hs)

/-- C3: every submitted job is terminated exactly once.  Across any run from a
fresh pool, the settlement log never settles a job id twice (first conjunct); an
arrival — worker message or timeout firing — for a job id no longer in the pending
map leaves the state unchanged, so removal is idempotent (second conjunct); and if
a job that has been submitted (pending or already settled) has its timeout fire
later in the trace, it is settled by the end of the trace (third conjunct) — since
the code schedules such a timeout for every submitted job, at least one of result
message, error message or timeout terminates every job. -/
theorem job_terminated_exactly_once (n : Nat) (t : List Event) :
    (termIds (run (initState n) t)).Nodup ∧
    (∀ s : EngineState, ∀ w j : Nat, ∀ isErr : Bool, j ∉ s.activeJobs →
      step s (Event.message w j isErr) = s ∧ step s (Event.timeoutFire j w) = s) ∧
    (∀ t1 t2 : List Event, ∀ j w : Nat,
      t = t1 ++ Event.timeoutFire j w :: t2 →
      j ∈ (run (initState n) t1).activeJobs ∨ j ∈ termIds (run (initState n) t1) →
      j ∈ termIds (run (initState n) t)) := by
  refine ⟨(jobInv_run n t).1.of_append_left, ?_, ?_⟩
  · intro s w j isErr hj
    refine ⟨?_, ?_⟩ <;> simp [step, hj]
  · intro t1 t2 j w ht hsub
    subst ht
    rw [run_append, run_cons]
    exact termIds_run_mono _ t2 j (timeout_step_settles _ j w hsub)

/-- Witness for job_terminated_exactly_once: one worker, one submitted job whose
timeout fires; the job is settled. -/
theorem job_terminated_exactly_once_witness :
    1 ∈ termIds (run (initState 1) [Event.submit, Event.timeoutFire 1 0]) :=
  (job_terminated_exactly_once 1 [Event.submit, Event.timeoutFire 1 0]).2.2
    [Event.submit] [] 1 0 rfl (by decide)

/-- C4: the job timeout is the fixed 30000 milliseconds, and for every reachable
engine state, if the timeout of a still-pending job j fires, that very step removes
j from the pending map, settles j as a timeout rejection (so the caller gets a
failure, not a hang), and pushes the worker captured at submission back into the
available pool. -/
theorem timeout_frees_slot (n : Nat) (t : List Event) (j w : Nat)
    (hpend : j ∈ (run (initState n) t).activeJobs)
    (hw : (j, w) ∈ (run (initState n) t).jobWorker) :
    jobTimeoutMs = 30000 ∧
    j ∉ (step (run (initState n) t) (Event.timeoutFire j w)).activeJobs ∧
    (j, JobOutcome.rejectedTimeout)
      ∈ (step (run (initState n) t) (Event.timeoutFire j w)).terminated ∧
    w ∈ (step (run (initState n) t) (Event.timeoutFire j w)).workerPool := by
  have hand : (run (initState n) t).activeJobs.Nodup :=
    (jobInv_run n t).1.of_append_right
  refine ⟨rfl, ?_, ?_, ?_⟩
  · simp only [step, if_pos hpend]
    intro hc
    exact ((hand.mem_erase_iff).mp hc).1 rfl
  · simp only [step, if_pos hpend]
    simp
  · simp only [step, if_pos hpend]
    simp

/-- Witness for timeout_frees_slot: one worker, one submitted job, timeout fires. -/
theorem timeout_frees_slot_witness :
    jobTimeoutMs = 30000 ∧
    1 ∉ (step (run (initState 1) [Event.submit]) (Event.timeoutFire 1 0)).activeJobs ∧
    (1, JobOutcome.rejectedTimeout)
      ∈ (step (run (initState 1) [Event.submit]) (Event.timeoutFire 1 0)).terminated ∧
    0 ∈ (step (run (initState 1) [Event.submit]) (Event.timeoutFire 1 0)).workerPool :=
  timeout_frees_slot 1 [Event.submit] 1 0 (by decide) (by decide)

end ReactIssueFinder
